import Mathlib

/-!
Verification of the text-anchoring and highlight-rendering engine of the
inspicio annotation UI (Open-Social-World/autolibra).

The engine is embedded shallowly from the TypeScript source:

* `renderHighlightedText` of
  `src/inspicio/src/components/webarena_ui/LabeledButton.tsx` (the
  CommentSystem defined in that file) is embedded as
  `renderHighlightedTextWA` below;
* `renderHighlightedText` of
  `src/inspicio/src/components/ui/comment-system.tsx` is embedded as
  `renderHighlightedTextUI`;
* the component state and the mutation handlers
  (`handleAnnotatorIdSubmit`, `handleTextSelection`, `addComment`,
  `updateComment`, `deleteComment`, `addReply`, `handleHighlightClick`,
  the document-change effect, and the resolution of the asynchronous
  persistence call) of the webarena_ui CommentSystem are embedded as a
  state structure `StoreState` with one Lean function per handler.

Strings are modelled as `List Char`; offsets as `Int` (JS numbers used as
integral indices); `String.prototype.substring` as `jsSubstring` with the
JS clamping and argument-swapping semantics; `String.prototype.trim` as
`jsTrim`; `Array.prototype.sort` with the comparator
`(a, b) => a.selection.startOffset - b.selection.startOffset` as the
stable insertion sort `sortByStart`.
-/

namespace Inspicio

/-- Whitespace recognised by the model of `String.prototype.trim`
(ASCII whitespace; the JS spec also strips other Unicode space code
points, which never occur in the claims considered here). -/
def isJsSpace (c : Char) : Bool :=
  c = ' ' || c = '\t' || c = '\n' || c = '\r' || c = '\x0b' || c = '\x0c'

/-- Model of `String.prototype.trim`: drop whitespace from both ends. -/
def jsTrim (s : List Char) : List Char :=
  ((s.dropWhile isJsSpace).reverse.dropWhile isJsSpace).reverse

/-- Model of `String.prototype.substring(a, b)`: both arguments are
clamped into `[0, length]` and swapped when out of order. -/
def jsSubstring (s : List Char) (a b : Int) : List Char :=
  let n : Int := (s.length : Int)
  let a1 := max 0 (min a n)
  let b1 := max 0 (min b n)
  ((s.take (max a1 b1).toNat).drop (min a1 b1).toNat)

/-- The `selection` payload captured by `handleTextSelection` and stored
inside a comment: the selected text together with its character offsets
(`position` is presentational and not part of the anchoring data). -/
structure SelectionDraft where
  text : List Char
  startOffset : Int
  endOffset : Int
deriving DecidableEq

/-- The `Reply` interface of the webarena_ui CommentSystem. -/
structure Reply where
  id : String
  text : List Char
  user : List Char
  timestamp : Nat
deriving DecidableEq

/-- The `Comment` interface of the webarena_ui CommentSystem.
`isSaving = true` is the Pending sync state; `saveError = some msg` is the
Failed sync state; `isSaving = false ∧ saveError = none` is Synced. -/
structure Comment where
  id : String
  text : List Char
  selection : SelectionDraft
  user : List Char
  timestamp : Nat
  replies : List Reply
  isSaving : Bool
  saveError : Option (List Char)
deriving DecidableEq

/-- One rendered text run produced by `renderHighlightedText`: either a
plain string part (`commentId = none`) or a highlighted `<span>` for one
comment, carrying the presentational metadata baked into its class
names. -/
structure Run where
  text : List Char
  commentId : Option String
  isActive : Bool
  isSaving : Bool
  saveError : Option (List Char)
deriving DecidableEq

/-- A plain (non-highlighted) run. -/
def plainRun (t : List Char) : Run :=
  { text := t, commentId := none, isActive := false, isSaving := false, saveError := none }

/-- The highlighted span pushed by the webarena_ui compositor for one
comment: carries active, saving and error presentation state. -/
def spanRunWA (text : List Char) (active : Option String) (c : Comment) : Run :=
  { text := jsSubstring text c.selection.startOffset c.selection.endOffset
    commentId := some c.id
    isActive := active = some c.id
    isSaving := c.isSaving
    saveError := c.saveError }

/-- The highlighted span pushed by the ui/comment-system compositor for
one comment: carries only the active flag. -/
def spanRunUI (text : List Char) (active : Option String) (c : Comment) : Run :=
  { text := jsSubstring text c.selection.startOffset c.selection.endOffset
    commentId := some c.id
    isActive := active = some c.id
    isSaving := false
    saveError := none }

/-- The sort key used by both compositors:
`(a, b) => a.selection.startOffset - b.selection.startOffset`. -/
def commentLE (a b : Comment) : Prop :=
  a.selection.startOffset ≤ b.selection.startOffset

instance : DecidableRel commentLE := fun a b =>
  inferInstanceAs (Decidable (a.selection.startOffset ≤ b.selection.startOffset))

instance : IsTotal Comment commentLE :=
  ⟨fun a b => Int.le_total a.selection.startOffset b.selection.startOffset⟩

instance : IsTrans Comment commentLE :=
  ⟨fun _ _ _ hab hbc => le_trans hab hbc⟩

/-- Model of `[...comments].sort((a, b) => a.selection.startOffset -
b.selection.startOffset)`: the stable ascending sort by start offset. -/
def sortByStart (l : List Comment) : List Comment :=
  List.insertionSort commentLE l

/-- The `forEach` walk of the webarena_ui `renderHighlightedText`
(LabeledButton.tsx): for each comment, push the plain text before the
highlight when `startOffset > lastIndex`, push the highlighted span
`text.substring(startOffset, endOffset)`, set `lastIndex = endOffset`;
after the walk push the remaining text when `lastIndex < text.length`.
There is no bounds or overlap check. -/
def runsWA (text : List Char) (active : Option String) :
    List Comment → Int → List Run
  | [], lastIndex =>
      if lastIndex < (text.length : Int) then
        [plainRun (jsSubstring text lastIndex (text.length : Int))]
      else []
  | c :: rest, lastIndex =>
      (if lastIndex < c.selection.startOffset then
        [plainRun (jsSubstring text lastIndex c.selection.startOffset)]
      else [])
      ++ spanRunWA text active c :: runsWA text active rest c.selection.endOffset

/-- The `forEach` walk of the ui/comment-system `renderHighlightedText`:
identical to the webarena_ui walk except that each comment is processed
only under the guard
`startOffset >= currentIndex && endOffset >= startOffset && endOffset <= sourceText.length`;
a comment failing the guard is skipped and the cursor is left unchanged. -/
def runsUI (text : List Char) (active : Option String) :
    List Comment → Int → List Run
  | [], currentIndex =>
      if currentIndex < (text.length : Int) then
        [plainRun (jsSubstring text currentIndex (text.length : Int))]
      else []
  | c :: rest, currentIndex =>
      if currentIndex ≤ c.selection.startOffset
          ∧ c.selection.startOffset ≤ c.selection.endOffset
          ∧ c.selection.endOffset ≤ (text.length : Int) then
        (if currentIndex < c.selection.startOffset then
          [plainRun (jsSubstring text currentIndex c.selection.startOffset)]
        else [])
        ++ spanRunUI text active c :: runsUI text active rest c.selection.endOffset
      else runsUI text active rest currentIndex

/-- `renderHighlightedText` of the webarena_ui CommentSystem: when the
document text is empty the function returns a placeholder node and
produces no runs; otherwise it sorts the comments ascending by start
offset and performs the left-to-right walk. -/
def renderHighlightedTextWA (text : List Char) (comments : List Comment)
    (active : Option String) : List Run :=
  if text = [] then [] else runsWA text active (sortByStart comments) 0

/-- `renderHighlightedText` of ui/comment-system.tsx: when the source
text is empty the function returns an empty container and produces no
runs; otherwise it sorts ascending and performs the guarded walk. -/
def renderHighlightedTextUI (text : List Char) (comments : List Comment)
    (active : Option String) : List Run :=
  if text = [] then [] else runsUI text active (sortByStart comments) 0

/-- Concatenation of the `text` fields of a run sequence. -/
def concatTexts : List Run → List Char
  | [] => []
  | r :: rs => r.text ++ concatTexts rs

/-- The payload `commentData` serialized by `addComment` and POSTed to
the persistence endpoint. -/
structure PersistPayload where
  instance_id : String
  agent_id : String
  annotator_id : List Char
  comment_text : List Char
  selection_text : List Char
  start_offset : Int
  end_offset : Int
deriving DecidableEq

/-- The React state of the webarena_ui CommentSystem component:
props `instanceId`, `agentId`, the document `text`, and the `useState`
cells `selection`, `comments`, `activeComment`, `newComment`,
`editingComment`, `annotatorId`, `isAnnotatorIdSet`, `isSubmitting`,
`submitError`. -/
structure StoreState where
  instanceId : Option String
  agentId : String
  text : List Char
  selection : Option SelectionDraft
  comments : List Comment
  activeComment : Option String
  newComment : List Char
  editingComment : Option String
  annotatorId : List Char
  isAnnotatorIdSet : Bool
  isSubmitting : Bool
  submitError : Option (List Char)
deriving DecidableEq

/-- Synthesized optimistic comment id: backtick-free model of the
template literal that prefixes `temp-` to `Date.now()`. -/
def mkTempId (now : Nat) : String :=
  "temp-" ++ toString now

/-- Synthesized reply id, prefixing `reply-` to `Date.now()`. -/
def mkReplyId (now : Nat) : String :=
  "reply-" ++ toString now

/-- Typing into the Annotator ID input; the input is rendered with
`disabled={isAnnotatorIdSet}`, so no edit is possible once the id is
set. -/
def setAnnotatorInput (v : List Char) (s : StoreState) : StoreState :=
  if s.isAnnotatorIdSet then s else { s with annotatorId := v }

/-- `handleAnnotatorIdSubmit`: lock the annotator identity when the
entered id is non-empty after trimming, otherwise do nothing. -/
def handleAnnotatorIdSubmit (s : StoreState) : StoreState :=
  if jsTrim s.annotatorId ≠ [] then { s with isAnnotatorIdSet := true } else s

/-- `handleTextSelection`: when the annotator id is not set the selection
is cleared and the handler returns; otherwise the browser selection is
resolved to a `SelectionDraft` (modelled as the `raw` input: `none` when
the selection is empty or outside the document container) and stored,
clearing any previous submit error. -/
def handleTextSelection (raw : Option SelectionDraft) (s : StoreState) : StoreState :=
  if s.isAnnotatorIdSet = false then { s with selection := none }
  else
    match raw with
    | some sel => { s with selection := some sel, submitError := none }
    | none => { s with selection := none }

/-- Typing into the comment input. -/
def setNewComment (v : List Char) (s : StoreState) : StoreState :=
  { s with newComment := v }

/-- Opening or closing the edit box of a comment. -/
def setEditingComment (v : Option String) (s : StoreState) : StoreState :=
  { s with editingComment := v }

/-- The validation message set by `addComment` when its guard fails. -/
def validationMsg : List Char :=
  "Cannot add comment: Missing required information or Annotator ID not set.".data

/-- `addComment` up to the point where the asynchronous fetch is issued:
the guard
`!instanceId || !isAnnotatorIdSet || !annotatorId.trim() || !selection || !newComment.trim()`
rejects with a submit error and no state change; otherwise the comment is
built with id `temp-` + `Date.now()`, the draft offsets copied verbatim,
`isSaving = true`, appended to the comment list, the form state reset,
and the serialized payload handed to the persistence call (returned as
`some payload`). -/
def addComment (now : Nat) (s : StoreState) : StoreState × Option PersistPayload :=
  match s.instanceId, s.selection with
  | some iid, some sel =>
      if s.isAnnotatorIdSet = true ∧ jsTrim s.annotatorId ≠ [] ∧ jsTrim s.newComment ≠ [] then
        let payload : PersistPayload :=
          { instance_id := iid
            agent_id := s.agentId
            annotator_id := jsTrim s.annotatorId
            comment_text := s.newComment
            selection_text := sel.text
            start_offset := sel.startOffset
            end_offset := sel.endOffset }
        let c : Comment :=
          { id := mkTempId now
            text := s.newComment
            selection :=
              { text := sel.text
                startOffset := sel.startOffset
                endOffset := sel.endOffset }
            user := jsTrim s.annotatorId
            timestamp := now
            replies := []
            isSaving := true
            saveError := none }
        ({ s with isSubmitting := true
                  submitError := none
                  comments := s.comments ++ [c]
                  newComment := []
                  selection := none }, some payload)
      else ({ s with submitError := some validationMsg }, none)
  | _, _ => ({ s with submitError := some validationMsg }, none)

/-- Resolution of a successful persistence call: the comment with the
matching temp id loses its saving flag (`finally` clears
`isSubmitting`). -/
def resolveSyncSuccess (cid : String) (s : StoreState) : StoreState :=
  { s with
      comments := s.comments.map fun c =>
        if c.id = cid then { c with isSaving := false } else c
      isSubmitting := false }

/-- Resolution of a failed persistence call (non-ok HTTP status or
transport error): the comment with the matching temp id keeps its place
in the list, loses the saving flag and gains the error message; the
submit error banner is set; no new request is issued. -/
def resolveSyncFailure (cid : String) (msg : List Char) (s : StoreState) : StoreState :=
  { s with
      comments := s.comments.map fun c =>
        if c.id = cid then { c with isSaving := false, saveError := some msg } else c
      submitError := some ("Failed to save: ".data ++ msg)
      isSubmitting := false }

/-- `updateComment`: replace the body of the matching comment and close
the edit box. -/
def updateComment (cid : String) (newText : List Char) (s : StoreState) : StoreState :=
  { s with
      comments := s.comments.map fun c =>
        if c.id = cid then { c with text := newText } else c
      editingComment := none }

/-- `deleteComment`: remove the matching comment; clear the activation
when the deleted comment was active. -/
def deleteComment (cid : String) (s : StoreState) : StoreState :=
  { s with
      comments := s.comments.filter fun c => c.id ≠ cid
      activeComment := if s.activeComment = some cid then none else s.activeComment }

/-- `addReply`: when the reply text is non-empty after trimming, append
one reply (id `reply-` + `Date.now()`, the trimmed annotator id as user)
to the matching comment; otherwise do nothing. No persistence call is
made. -/
def addReply (now : Nat) (cid : String) (replyText : List Char) (s : StoreState) : StoreState :=
  if jsTrim replyText ≠ [] then
    { s with
        comments := s.comments.map fun c =>
          if c.id = cid then
            { c with replies := c.replies ++
                [{ id := mkReplyId now
                   text := replyText
                   user := jsTrim s.annotatorId
                   timestamp := now }] }
          else c }
  else s

/-- `handleHighlightClick`: toggle the active comment. -/
def handleHighlightClick (cid : String) (s : StoreState) : StoreState :=
  { s with activeComment := if s.activeComment = some cid then none else some cid }

/-- The `useEffect` on `initialText`: switching to a different document
resets the comment set, the selection draft, the activation, the inputs
and the error banner; the annotator identity is preserved. -/
def changeDocument (iid : Option String) (aid : String) (txt : List Char)
    (s : StoreState) : StoreState :=
  { s with
      instanceId := iid
      agentId := aid
      text := txt
      comments := []
      selection := none
      activeComment := none
      newComment := []
      editingComment := none
      submitError := none }

/-- The `handleSubmit` of the AnnotatorCard component
(src/unnamed/part_007): rejects a blank annotator id or a missing agent
selection with an error and no submission; otherwise submits the trimmed
annotator id together with the selected agent. -/
def annotatorCardSubmit (annotatorIdInput : List Char) (selectedAgentIdInput : String) :
    Option (List Char × String) :=
  if jsTrim annotatorIdInput = [] then none
  else if selectedAgentIdInput = "" then none
  else some (jsTrim annotatorIdInput, selectedAgentIdInput)

/-- An initial component state: all `useState` cells at their initial
values, the props arbitrary. -/
def Init (s : StoreState) : Prop :=
  s.selection = none ∧ s.comments = [] ∧ s.activeComment = none ∧
  s.newComment = [] ∧ s.editingComment = none ∧ s.annotatorId = [] ∧
  s.isAnnotatorIdSet = false ∧ s.isSubmitting = false ∧ s.submitError = none

/-- One UI event processed by the component. `click` fires only from a
rendered highlight span or comment card, whose `onClick` closure passes
the id of a comment present in the list. -/
inductive Step : StoreState → StoreState → Prop
  | annotatorInput (v : List Char) (s : StoreState) : Step s (setAnnotatorInput v s)
  | lock (s : StoreState) : Step s (handleAnnotatorIdSubmit s)
  | select (raw : Option SelectionDraft) (s : StoreState) : Step s (handleTextSelection raw s)
  | typeComment (v : List Char) (s : StoreState) : Step s (setNewComment v s)
  | editBox (v : Option String) (s : StoreState) : Step s (setEditingComment v s)
  | create (now : Nat) (s : StoreState) : Step s (addComment now s).1
  | syncOk (cid : String) (s : StoreState) : Step s (resolveSyncSuccess cid s)
  | syncFail (cid : String) (msg : List Char) (s : StoreState) :
      Step s (resolveSyncFailure cid msg s)
  | update (cid : String) (v : List Char) (s : StoreState) : Step s (updateComment cid v s)
  | delete (cid : String) (s : StoreState) : Step s (deleteComment cid s)
  | reply (now : Nat) (cid : String) (v : List Char) (s : StoreState) :
      Step s (addReply now cid v s)
  | click (cid : String) (s : StoreState) (h : cid ∈ s.comments.map Comment.id) :
      Step s (handleHighlightClick cid s)
  | newDoc (iid : Option String) (aid : String) (txt : List Char) (s : StoreState) :
      Step s (changeDocument iid aid txt s)

/-- States reachable from an initial component state through UI events. -/
inductive Reachable : StoreState → Prop
  | init (s : StoreState) (h : Init s) : Reachable s
  | step {s t : StoreState} (hr : Reachable s) (hs : Step s t) : Reachable t

/-- A lawful anchor, the invariant of the spec data model:
`0 ≤ startOffset < endOffset ≤ len(Document)`. -/
def validAnchor (len : Int) (c : Comment) : Prop :=
  0 ≤ c.selection.startOffset ∧
  c.selection.startOffset < c.selection.endOffset ∧
  c.selection.endOffset ≤ len

/-- Two comments have non-overlapping anchors. -/
def anchorsDisjoint (a b : Comment) : Prop :=
  a.selection.endOffset ≤ b.selection.startOffset ∨
  b.selection.endOffset ≤ a.selection.startOffset

/-- An anchor violating the lawful range: a negative start, an inverted
pair, or an end beyond the document length. -/
def badAnchor (len : Int) (c : Comment) : Prop :=
  c.selection.startOffset < 0 ∨
  c.selection.endOffset < c.selection.startOffset ∨
  len < c.selection.endOffset

instance (len : Int) (c : Comment) : Decidable (validAnchor len c) :=
  inferInstanceAs (Decidable (_ ∧ _ ∧ _))

instance (a b : Comment) : Decidable (anchorsDisjoint a b) :=
  inferInstanceAs (Decidable (_ ∨ _))

instance (len : Int) (c : Comment) : Decidable (badAnchor len c) :=
  inferInstanceAs (Decidable (_ ∨ _ ∨ _))

/-- Chained well-formedness of a sorted comment list as seen by the
left-to-right walk starting at cursor `idx`: each anchor starts at or
after the cursor, is non-degenerate, ends within the document, and the
tail is chained from its end. -/
def wellFormedFrom (len : Int) : Int → List Comment → Prop
  | _, [] => True
  | idx, c :: rest =>
      idx ≤ c.selection.startOffset ∧
      c.selection.startOffset < c.selection.endOffset ∧
      c.selection.endOffset ≤ len ∧
      wellFormedFrom len c.selection.endOffset rest

/-! ### Concrete values used by counterexamples and witnesses -/

/-- A 25-character document. -/
def doc25 : List Char := "abcdefghijklmnopqrstuvwxy".data

/-- A comment anchored at `[5, 20)` of `doc25`. -/
def commentA : Comment :=
  { id := "a", text := "first comment".data,
    selection := { text := "fghijklmnopqrst".data, startOffset := 5, endOffset := 20 },
    user := "alice".data, timestamp := 0, replies := [], isSaving := false, saveError := none }

/-- A comment anchored at `[15, 25)` of `doc25`, overlapping
`commentA`. -/
def commentB : Comment :=
  { id := "b", text := "second comment".data,
    selection := { text := "pqrstuvwxy".data, startOffset := 15, endOffset := 25 },
    user := "bob".data, timestamp := 1, replies := [], isSaving := false, saveError := none }

/-- A 10-character document. -/
def doc10 : List Char := "0123456789".data

/-- A comment whose anchor `[5, 15)` runs past the end of `doc10`. -/
def commentBad : Comment :=
  { id := "x", text := "out of range".data,
    selection := { text := "".data, startOffset := 5, endOffset := 15 },
    user := "alice".data, timestamp := 0, replies := [], isSaving := false, saveError := none }

/-- A concrete initial component state. -/
def state0 : StoreState :=
  { instanceId := some "inst-1", agentId := "agent-1",
    text := "Hello brave new world".data,
    selection := none, comments := [], activeComment := none,
    newComment := [], editingComment := none, annotatorId := [],
    isAnnotatorIdSet := false, isSubmitting := false, submitError := none }

/-- The draft selecting `brave` in `Hello brave new world`. -/
def draftBrave : SelectionDraft :=
  { text := "brave".data, startOffset := 6, endOffset := 11 }

/-- `state0` after typing and locking the annotator id `alice`. -/
def stateLocked : StoreState :=
  handleAnnotatorIdSubmit (setAnnotatorInput "alice".data state0)

/-- `stateLocked` after selecting `brave` and typing a comment body. -/
def stateDraft : StoreState :=
  setNewComment "nice adjective".data (handleTextSelection (some draftBrave) stateLocked)

/-- `stateDraft` after submitting the comment at millisecond 5. -/
def stateOne : StoreState :=
  (addComment 5 stateDraft).1

/-- `stateOne` after selecting `brave` again and typing a second body,
still at millisecond 5. -/
def stateDraftTwo : StoreState :=
  setNewComment "again".data (handleTextSelection (some draftBrave) stateOne)

/-- `stateDraftTwo` after submitting the second comment at the same
millisecond 5: the id collision state. -/
def stateTwo : StoreState :=
  (addComment 5 stateDraftTwo).1

/-- `stateOne` after clicking the highlight of the first comment. -/
def stateClicked : StoreState :=
  handleHighlightClick "temp-5" stateOne

/-- `state0` with a whitespace-only annotator id typed in. -/
def stateBlank : StoreState :=
  setAnnotatorInput "  ".data state0

/-! ### Helper lemmas about the substring model -/

theorem jsSubstring_of_le {s : List Char} {a b : Int} (h0 : 0 ≤ a) (hab : a ≤ b)
    (hb : b ≤ (s.length : Int)) :
    jsSubstring s a b = (s.take b.toNat).drop a.toNat := by
  have h1 : min a (s.length : Int) = a := min_eq_left (le_trans hab hb)
  have h2 : min b (s.length : Int) = b := min_eq_left hb
  simp only [jsSubstring, h1, h2, max_eq_right h0, max_eq_right (le_trans h0 hab),
    min_eq_left hab, max_eq_right hab]

theorem length_jsSubstring_of_le {s : List Char} {a b : Int} (h0 : 0 ≤ a) (hab : a ≤ b)
    (hb : b ≤ (s.length : Int)) :
    (jsSubstring s a b).length = (b - a).toNat := by
  rw [jsSubstring_of_le h0 hab hb, List.length_drop, List.length_take]
  omega

theorem jsSubstring_ne_nil {s : List Char} {a b : Int} (h0 : 0 ≤ a) (hab : a < b)
    (hb : b ≤ (s.length : Int)) : jsSubstring s a b ≠ [] := by
  have hlen : (jsSubstring s a b).length = (b - a).toNat :=
    length_jsSubstring_of_le h0 (le_of_lt hab) hb
  intro hnil
  rw [hnil] at hlen
  simp only [List.length_nil] at hlen
  omega

theorem jsSubstring_glue {s : List Char} {a b c : Int} (h0 : 0 ≤ a) (hab : a ≤ b)
    (hbc : b ≤ c) (hc : c ≤ (s.length : Int)) :
    jsSubstring s a b ++ jsSubstring s b c = jsSubstring s a c := by
  rw [jsSubstring_of_le h0 hab (le_trans hbc hc),
    jsSubstring_of_le (le_trans h0 hab) hbc hc,
    jsSubstring_of_le h0 (le_trans hab hbc) hc]
  rw [List.drop_take, List.drop_take, List.drop_take]
  rw [show (s.drop b.toNat) = (s.drop a.toNat).drop (b.toNat - a.toNat) by
    rw [List.drop_drop]; congr 1; omega]
  rw [← List.take_add]
  congr 1
  omega

theorem jsSubstring_full (s : List Char) : jsSubstring s 0 (s.length : Int) = s := by
  rw [jsSubstring_of_le le_rfl (Int.ofNat_nonneg _) le_rfl]
  simp

theorem concatTexts_append (l1 l2 : List Run) :
    concatTexts (l1 ++ l2) = concatTexts l1 ++ concatTexts l2 := by
  induction l1 with
  | nil => simp [concatTexts]
  | cons r rs ih => simp [concatTexts, ih]

theorem jsSubstring_same {s : List Char} {a : Int} (h0 : 0 ≤ a)
    (ha : a ≤ (s.length : Int)) : jsSubstring s a a = [] := by
  have := length_jsSubstring_of_le h0 le_rfl ha (s := s)
  simp only [sub_self, Int.toNat_zero] at this
  exact List.eq_nil_of_length_eq_zero this

@[simp] theorem plainRun_text (t : List Char) : (plainRun t).text = t := rfl

@[simp] theorem spanRunWA_text (text : List Char) (active : Option String) (c : Comment) :
    (spanRunWA text active c).text =
      jsSubstring text c.selection.startOffset c.selection.endOffset := rfl

@[simp] theorem spanRunUI_text (text : List Char) (active : Option String) (c : Comment) :
    (spanRunUI text active c).text =
      jsSubstring text c.selection.startOffset c.selection.endOffset := rfl

/-! ### The compositor walks on well-formed sorted input -/

theorem runsWA_walk (text : List Char) (active : Option String) :
    ∀ (l : List Comment) (idx : Int), 0 ≤ idx → idx ≤ (text.length : Int) →
      wellFormedFrom (text.length : Int) idx l →
      concatTexts (runsWA text active l idx) = jsSubstring text idx (text.length : Int) ∧
      ∀ r ∈ runsWA text active l idx, r.text ≠ []
  | [], idx, h0, hlen, _ => by
      by_cases h : idx < (text.length : Int)
      · refine ⟨?_, ?_⟩
        · simp [runsWA, if_pos h, concatTexts]
        · intro r hr
          simp only [runsWA, if_pos h, List.mem_singleton] at hr
          subst hr
          exact jsSubstring_ne_nil h0 h le_rfl
      · refine ⟨?_, ?_⟩
        · have heq : idx = (text.length : Int) := le_antisymm hlen (not_lt.mp h)
          simp only [runsWA, if_neg h, concatTexts]
          rw [heq]
          exact (jsSubstring_same (heq ▸ h0) le_rfl).symm
        · intro r hr
          simp [runsWA, if_neg h] at hr
  | c :: rest, idx, h0, hlen, hwf => by
      obtain ⟨h1, h2, h3, hwfrest⟩ := hwf
      have hs0 : (0 : Int) ≤ c.selection.startOffset := le_trans h0 h1
      have he0 : (0 : Int) ≤ c.selection.endOffset := le_trans hs0 (le_of_lt h2)
      obtain ⟨ihcat, ihne⟩ := runsWA_walk text active rest c.selection.endOffset he0 h3 hwfrest
      have hslen : c.selection.startOffset ≤ (text.length : Int) :=
        le_trans (le_of_lt h2) h3
      refine ⟨?_, ?_⟩
      · simp only [runsWA, concatTexts_append]
        by_cases hgt : idx < c.selection.startOffset
        · rw [if_pos hgt]
          simp only [concatTexts, plainRun_text, spanRunWA_text, List.append_nil, ihcat]
          rw [jsSubstring_glue hs0 (le_of_lt h2) h3 le_rfl,
            jsSubstring_glue h0 (le_of_lt hgt) hslen le_rfl]
        · rw [if_neg hgt]
          have heq : idx = c.selection.startOffset := le_antisymm h1 (not_lt.mp hgt)
          simp only [concatTexts, plainRun_text, spanRunWA_text, List.nil_append, ihcat]
          rw [heq, jsSubstring_glue hs0 (le_of_lt h2) h3 le_rfl]
      · intro r hr
        simp only [runsWA, List.mem_append, List.mem_cons] at hr
        rcases hr with hpl | hsp | hrec
        · by_cases hgt : idx < c.selection.startOffset
          · rw [if_pos hgt, List.mem_singleton] at hpl
            subst hpl
            exact jsSubstring_ne_nil h0 hgt hslen
          · rw [if_neg hgt] at hpl
            exact absurd hpl (List.not_mem_nil r)
        · subst hsp
          simp only [spanRunWA_text]
          exact jsSubstring_ne_nil hs0 h2 h3
        · exact ihne r hrec

theorem runsUI_walk (text : List Char) (active : Option String) :
    ∀ (l : List Comment) (idx : Int), 0 ≤ idx → idx ≤ (text.length : Int) →
      wellFormedFrom (text.length : Int) idx l →
      concatTexts (runsUI text active l idx) = jsSubstring text idx (text.length : Int) ∧
      ∀ r ∈ runsUI text active l idx, r.text ≠ []
  | [], idx, h0, hlen, _ => by
      by_cases h : idx < (text.length : Int)
      · refine ⟨?_, ?_⟩
        · simp [runsUI, if_pos h, concatTexts]
        · intro r hr
          simp only [runsUI, if_pos h, List.mem_singleton] at hr
          subst hr
          exact jsSubstring_ne_nil h0 h le_rfl
      · refine ⟨?_, ?_⟩
        · have heq : idx = (text.length : Int) := le_antisymm hlen (not_lt.mp h)
          simp only [runsUI, if_neg h, concatTexts]
          rw [heq]
          exact (jsSubstring_same (heq ▸ h0) le_rfl).symm
        · intro r hr
          simp [runsUI, if_neg h] at hr
  | c :: rest, idx, h0, hlen, hwf => by
      obtain ⟨h1, h2, h3, hwfrest⟩ := hwf
      have hguard : idx ≤ c.selection.startOffset ∧
          c.selection.startOffset ≤ c.selection.endOffset ∧
          c.selection.endOffset ≤ (text.length : Int) := ⟨h1, le_of_lt h2, h3⟩
      have hs0 : (0 : Int) ≤ c.selection.startOffset := le_trans h0 h1
      have he0 : (0 : Int) ≤ c.selection.endOffset := le_trans hs0 (le_of_lt h2)
      obtain ⟨ihcat, ihne⟩ := runsUI_walk text active rest c.selection.endOffset he0 h3 hwfrest
      have hslen : c.selection.startOffset ≤ (text.length : Int) :=
        le_trans (le_of_lt h2) h3
      refine ⟨?_, ?_⟩
      · simp only [runsUI, if_pos hguard, concatTexts_append]
        by_cases hgt : idx < c.selection.startOffset
        · rw [if_pos hgt]
          simp only [concatTexts, plainRun_text, spanRunUI_text, List.append_nil, ihcat]
          rw [jsSubstring_glue hs0 (le_of_lt h2) h3 le_rfl,
            jsSubstring_glue h0 (le_of_lt hgt) hslen le_rfl]
        · rw [if_neg hgt]
          have heq : idx = c.selection.startOffset := le_antisymm h1 (not_lt.mp hgt)
          simp only [concatTexts, plainRun_text, spanRunUI_text, List.nil_append, ihcat]
          rw [heq, jsSubstring_glue hs0 (le_of_lt h2) h3 le_rfl]
      · intro r hr
        simp only [runsUI, if_pos hguard, List.mem_append, List.mem_cons] at hr
        rcases hr with hpl | hsp | hrec
        · by_cases hgt : idx < c.selection.startOffset
          · rw [if_pos hgt, List.mem_singleton] at hpl
            subst hpl
            exact jsSubstring_ne_nil h0 hgt hslen
          · rw [if_neg hgt] at hpl
            exact absurd hpl (List.not_mem_nil r)
        · subst hsp
          simp only [spanRunUI_text]
          exact jsSubstring_ne_nil hs0 h2 h3
        · exact ihne r hrec

theorem wellFormedFrom_of_sorted (len : Int) :
    ∀ (l : List Comment),
      List.Pairwise (fun a b => commentLE a b ∧ anchorsDisjoint a b) l →
      (∀ c ∈ l, validAnchor len c) →
      ∀ idx : Int, (∀ c ∈ l, idx ≤ c.selection.startOffset) →
      wellFormedFrom len idx l
  | [], _, _, _, _ => trivial
  | c :: rest, hpw, hvalid, idx, hidx => by
      obtain ⟨hhead, hrest⟩ := List.pairwise_cons.mp hpw
      obtain ⟨hv0, hv1, hv2⟩ := hvalid c (List.mem_cons_self c rest)
      refine ⟨hidx c (List.mem_cons_self c rest), hv1, hv2, ?_⟩
      refine wellFormedFrom_of_sorted len rest hrest
        (fun b hb => hvalid b (List.mem_cons_of_mem c hb)) _ (fun b hb => ?_)
      obtain ⟨hle, hdisj⟩ := hhead b hb
      obtain ⟨_, hb1, _⟩ := hvalid b (List.mem_cons_of_mem c hb)
      rcases hdisj with h | h
      · exact h
      · exact absurd (lt_of_le_of_lt (le_trans h hle) hb1) (lt_irrefl _)

/-! ### Claim C1 -/

/-- C1 (corrected): for every document and every comment set whose
anchors are pairwise non-overlapping and satisfy
`0 ≤ startOffset < endOffset ≤ len(document)`, both compositors produce
runs whose concatenated text equals the document exactly and none of
whose runs has empty text; when the comment set is empty AND the document
is non-empty, the output is the single plain run holding the whole
document. (The original claim asserted the single-run conclusion for
every document; it fails for the empty document, where both compositors
return no runs at all — see the counterexample.) -/
theorem composite_concat_eq_document (text : List Char) (comments : List Comment)
    (active : Option String)
    (hvalid : ∀ c ∈ comments, validAnchor (text.length : Int) c)
    (hdisj : List.Pairwise anchorsDisjoint comments) :
    (concatTexts (renderHighlightedTextWA text comments active) = text ∧
      (∀ r ∈ renderHighlightedTextWA text comments active, r.text ≠ []) ∧
      (comments = [] → text ≠ [] →
        renderHighlightedTextWA text comments active = [plainRun text])) ∧
    (concatTexts (renderHighlightedTextUI text comments active) = text ∧
      (∀ r ∈ renderHighlightedTextUI text comments active, r.text ≠ []) ∧
      (comments = [] → text ≠ [] →
        renderHighlightedTextUI text comments active = [plainRun text])) := by
  by_cases htext : text = []
  · subst htext
    simp [renderHighlightedTextWA, renderHighlightedTextUI, concatTexts]
  · have hsorted : List.Pairwise commentLE (sortByStart comments) :=
      List.sorted_insertionSort commentLE comments
    have hperm : List.Perm (sortByStart comments) comments :=
      List.perm_insertionSort commentLE comments
    have hdisj2 : List.Pairwise anchorsDisjoint (sortByStart comments) := by
      refine (List.Perm.pairwise_iff ?_ hperm).mpr hdisj
      intro a b hab
      exact Or.elim hab Or.inr Or.inl
    have hvalid2 : ∀ c ∈ sortByStart comments, validAnchor (text.length : Int) c :=
      fun c hc => hvalid c (hperm.mem_iff.mp hc)
    have hwf : wellFormedFrom (text.length : Int) 0 (sortByStart comments) := by
      refine wellFormedFrom_of_sorted _ _ (hsorted.and hdisj2) hvalid2 0 ?_
      intro c hc
      exact (hvalid2 c hc).1
    have h0len : (0 : Int) ≤ (text.length : Int) := Int.ofNat_nonneg _
    obtain ⟨hcatWA, hneWA⟩ := runsWA_walk text active (sortByStart comments) 0 le_rfl h0len hwf
    obtain ⟨hcatUI, hneUI⟩ := runsUI_walk text active (sortByStart comments) 0 le_rfl h0len hwf
    rw [jsSubstring_full] at hcatWA hcatUI
    have hlenpos : text ≠ [] → (0 : Int) < (text.length : Int) := by
      intro hne
      have := List.length_pos.mpr hne
      omega
    refine ⟨⟨?_, ?_, ?_⟩, ⟨?_, ?_, ?_⟩⟩
    · simpa only [renderHighlightedTextWA, if_neg htext] using hcatWA
    · simpa only [renderHighlightedTextWA, if_neg htext] using hneWA
    · intro hc hne
      subst hc
      simp only [renderHighlightedTextWA, if_neg htext, sortByStart, List.insertionSort,
        runsWA, if_pos (hlenpos hne), jsSubstring_full]
    · simpa only [renderHighlightedTextUI, if_neg htext] using hcatUI
    · simpa only [renderHighlightedTextUI, if_neg htext] using hneUI
    · intro hc hne
      subst hc
      simp only [renderHighlightedTextUI, if_neg htext, sortByStart, List.insertionSort,
        runsUI, if_pos (hlenpos hne), jsSubstring_full]

/-- C1 counterexample: on the empty document with no comments, neither
compositor produces the single whole-document plain run the claim
demands; both produce no runs at all. -/
theorem composite_empty_doc_counterexample :
    renderHighlightedTextWA [] [] none ≠ [plainRun []] ∧
    renderHighlightedTextUI [] [] none ≠ [plainRun []] := by
  decide

/-- Witness for `composite_concat_eq_document` at the document `doc25`
with the single comment `commentA`. -/
theorem composite_concat_eq_document_witness :
    (concatTexts (renderHighlightedTextWA doc25 [commentA] none) = doc25 ∧
      (∀ r ∈ renderHighlightedTextWA doc25 [commentA] none, r.text ≠ []) ∧
      ([commentA] = ([] : List Comment) → doc25 ≠ [] →
        renderHighlightedTextWA doc25 [commentA] none = [plainRun doc25])) ∧
    (concatTexts (renderHighlightedTextUI doc25 [commentA] none) = doc25 ∧
      (∀ r ∈ renderHighlightedTextUI doc25 [commentA] none, r.text ≠ []) ∧
      ([commentA] = ([] : List Comment) → doc25 ≠ [] →
        renderHighlightedTextUI doc25 [commentA] none = [plainRun doc25])) :=
  composite_concat_eq_document doc25 [commentA] none (by decide) (by simp)

/-! ### Claim C2 -/

/-- C2 counterexample: at the example of the claim (anchors `[5, 20)` and
`[15, 25)` on a 25-character document), neither compositor clips the
second comment to `[20, 25)`: the webarena_ui compositor re-emits the
full `[15, 25)` slice (so the concatenated output is no longer the
document), and the ui/comment-system compositor drops the second comment
from the output entirely. -/
theorem overlap_clip_counterexample :
    concatTexts (renderHighlightedTextWA doc25 [commentA, commentB] none) ≠ doc25 ∧
    ((renderHighlightedTextWA doc25 [commentA, commentB] none).filter
        (fun r => r.commentId == some "b")).map Run.text ≠ ["uvwxy".data] ∧
    ((renderHighlightedTextUI doc25 [commentA, commentB] none).filter
        (fun r => r.commentId == some "b")).map Run.text ≠ ["uvwxy".data] := by
  decide

/-- C2 (corrected): both compositors sort ascending by start offset and
advance the cursor to a rendered comment's end offset, but on the
claimed example neither produces a clipped `[20, 25)` highlight for the
second comment. The webarena_ui compositor emits the second comment's
full `[15, 25)` slice as its highlighted run, duplicating the overlap
`[15, 20)`; the ui/comment-system compositor skips the overlapping
comment entirely and renders `[20, 25)` as plain trailing text. -/
theorem overlap_policy_actual :
    renderHighlightedTextWA doc25 [commentA, commentB] none =
      [plainRun "abcde".data,
       { text := "fghijklmnopqrst".data, commentId := some "a", isActive := false,
         isSaving := false, saveError := none },
       { text := "pqrstuvwxy".data, commentId := some "b", isActive := false,
         isSaving := false, saveError := none }] ∧
    renderHighlightedTextUI doc25 [commentA, commentB] none =
      [plainRun "abcde".data,
       { text := "fghijklmnopqrst".data, commentId := some "a", isActive := false,
         isSaving := false, saveError := none },
       plainRun "uvwxy".data] := by
  decide

/-! ### Claim C9 -/

theorem commentLE_trans {a b c : Comment} (h1 : commentLE a b) (h2 : commentLE b c) :
    commentLE a c := le_trans h1 h2

theorem orderedInsert_split (x : Comment) :
    ∀ l : List Comment, ∃ t1 t2,
      List.orderedInsert commentLE x l = t1 ++ x :: t2 ∧ l = t1 ++ t2
  | [] => ⟨[], [], rfl, rfl⟩
  | b :: l => by
      by_cases h : commentLE x b
      · exact ⟨[], b :: l, by simp [List.orderedInsert, if_pos h], rfl⟩
      · obtain ⟨t1, t2, h1, h2⟩ := orderedInsert_split x l
        exact ⟨b :: t1, t2, by simp [List.orderedInsert, if_neg h, h1],
          by simp only [List.cons_append, h2]⟩

theorem orderedInsert_middle (x c : Comment) :
    ∀ (t1 t2 : List Comment), List.Pairwise commentLE (t1 ++ c :: t2) →
      ∃ u1 u2, List.orderedInsert commentLE x (t1 ++ c :: t2) = u1 ++ c :: u2 ∧
        List.orderedInsert commentLE x (t1 ++ t2) = u1 ++ u2
  | [], t2, hs => by
      by_cases h : commentLE x c
      · refine ⟨[x], t2, by simp [List.orderedInsert, if_pos h], ?_⟩
        cases t2 with
        | nil => simp [List.orderedInsert]
        | cons b t2 =>
            have hcb : commentLE c b :=
              (List.pairwise_cons.mp (by simpa using hs)).1 b (List.mem_cons_self b t2)
            simp [List.orderedInsert, if_pos (commentLE_trans h hcb)]
      · exact ⟨[], List.orderedInsert commentLE x t2,
          by simp [List.orderedInsert, if_neg h], by simp⟩
  | b :: t1, t2, hs => by
      by_cases h : commentLE x b
      · exact ⟨x :: b :: t1, t2, by simp [List.orderedInsert, if_pos h],
          by simp [List.orderedInsert, if_pos h]⟩
      · obtain ⟨u1, u2, h1, h2⟩ :=
          orderedInsert_middle x c t1 t2 (List.pairwise_cons.mp (by simpa using hs)).2
        exact ⟨b :: u1, u2, by simp [List.orderedInsert, if_neg h, h1],
          by simp [List.orderedInsert, if_neg h, h2]⟩

theorem sortByStart_middle (c : Comment) :
    ∀ (l1 l2 : List Comment), ∃ t1 t2,
      sortByStart (l1 ++ c :: l2) = t1 ++ c :: t2 ∧ sortByStart (l1 ++ l2) = t1 ++ t2
  | [], l2 => by
      obtain ⟨t1, t2, h1, h2⟩ := orderedInsert_split c (sortByStart l2)
      refine ⟨t1, t2, ?_, ?_⟩
      · simpa only [sortByStart, List.nil_append, List.insertionSort] using h1
      · simpa only [sortByStart, List.nil_append] using h2
  | x :: l1, l2 => by
      obtain ⟨t1, t2, h1, h2⟩ := sortByStart_middle c l1 l2
      simp only [sortByStart] at h1 h2
      have hsorted : List.Pairwise commentLE (t1 ++ c :: t2) := by
        rw [← h1]
        exact List.sorted_insertionSort commentLE _
      obtain ⟨u1, u2, g1, g2⟩ := orderedInsert_middle x c t1 t2 hsorted
      refine ⟨u1, u2, ?_, ?_⟩
      · show List.orderedInsert commentLE x
          (List.insertionSort commentLE (l1 ++ c :: l2)) = u1 ++ c :: u2
        rw [h1]
        exact g1
      · show List.orderedInsert commentLE x
          (List.insertionSort commentLE (l1 ++ l2)) = u1 ++ u2
        rw [h2]
        exact g2

theorem runsUI_skip_bad (text : List Char) (active : Option String) (c : Comment)
    (hbad : badAnchor (text.length : Int) c) :
    ∀ (t1 t2 : List Comment) (idx : Int), 0 ≤ idx →
      runsUI text active (t1 ++ c :: t2) idx = runsUI text active (t1 ++ t2) idx
  | [], t2, idx, h0 => by
      have hguard : ¬ (idx ≤ c.selection.startOffset ∧
          c.selection.startOffset ≤ c.selection.endOffset ∧
          c.selection.endOffset ≤ (text.length : Int)) := by
        rcases hbad with h | h | h <;> rintro ⟨g1, g2, g3⟩ <;> omega
      simp only [List.nil_append, runsUI, if_neg hguard]
  | x :: t1, t2, idx, h0 => by
      rw [List.cons_append, List.cons_append]
      simp only [runsUI]
      by_cases hg : idx ≤ x.selection.startOffset ∧
          x.selection.startOffset ≤ x.selection.endOffset ∧
          x.selection.endOffset ≤ (text.length : Int)
      · have hend : (0 : Int) ≤ x.selection.endOffset := by
          obtain ⟨g1, g2, g3⟩ := hg
          omega
        rw [if_pos hg, if_pos hg,
          runsUI_skip_bad text active c hbad t1 t2 x.selection.endOffset hend]
      · rw [if_neg hg, if_neg hg, runsUI_skip_bad text active c hbad t1 t2 idx h0]

/-- C9 counterexample: the webarena_ui compositor does not skip a
comment whose anchor runs past the end of the document (`[5, 15)` on a
10-character document): its output differs from the output with the
comment absent, because the clamped slice is still emitted as a
highlighted run. -/
theorem invalid_anchor_counterexample :
    badAnchor (doc10.length : Int) commentBad ∧
    renderHighlightedTextWA doc10 [commentBad] none ≠
      renderHighlightedTextWA doc10 [] none := by
  decide

/-- C9 (corrected): the ui/comment-system compositor does treat a
comment whose anchor has a negative start, an inverted offset pair, or
an end beyond the document length as unrenderable and skips it, producing
exactly the run sequence it would produce with the comment absent (and it
never throws, being a total function). The webarena_ui compositor has no
such guard and renders the clamped substring instead — see the
counterexample. -/
theorem ui_compositor_skips_invalid (text : List Char) (l1 l2 : List Comment)
    (active : Option String) (c : Comment)
    (hbad : badAnchor (text.length : Int) c) :
    renderHighlightedTextUI text (l1 ++ c :: l2) active =
      renderHighlightedTextUI text (l1 ++ l2) active := by
  by_cases htext : text = []
  · simp [renderHighlightedTextUI, htext]
  · simp only [renderHighlightedTextUI, if_neg htext]
    obtain ⟨t1, t2, h1, h2⟩ := sortByStart_middle c l1 l2
    rw [h1, h2]
    exact runsUI_skip_bad text active c hbad t1 t2 0 le_rfl

/-- Witness for `ui_compositor_skips_invalid` at `doc10` with the single
out-of-range comment `commentBad`. -/
theorem ui_compositor_skips_invalid_witness :
    badAnchor (doc10.length : Int) commentBad ∧
    renderHighlightedTextUI doc10 [commentBad] none =
      renderHighlightedTextUI doc10 [] none :=
  ⟨by decide, ui_compositor_skips_invalid doc10 [] [] none commentBad (by decide)⟩

/-! ### Claim C5 -/

/-- C5 (confirmed): `addComment` is a no-op on the comment list, and
hands nothing to the persistence call, whenever the selection draft is
null, the comment body is empty or whitespace-only, or the annotator id
is the empty string. -/
theorem addComment_validation_noop (s : StoreState) (now : Nat)
    (h : s.selection = none ∨ jsTrim s.newComment = [] ∨ s.annotatorId = []) :
    (addComment now s).1.comments = s.comments ∧ (addComment now s).2 = none := by
  have htrids : s.annotatorId = [] → jsTrim s.annotatorId = [] := by
    intro hh
    rw [hh]
    rfl
  rcases h with h | h | h
  · cases hinst : s.instanceId <;> simp [addComment, h, hinst]
  · cases hinst : s.instanceId <;> cases hsel : s.selection <;>
      simp [addComment, h, hinst, hsel]
  · cases hinst : s.instanceId <;> cases hsel : s.selection <;>
      simp [addComment, htrids h, hinst, hsel]

/-- Witness for `addComment_validation_noop` at the locked state with an
empty comment body. -/
theorem addComment_validation_noop_witness :
    (addComment 3 stateLocked).1.comments = stateLocked.comments ∧
    (addComment 3 stateLocked).2 = none :=
  addComment_validation_noop stateLocked 3 (Or.inr (Or.inl (by decide)))

/-! ### Claim C7 -/

/-- C7 (confirmed): submitting a whitespace-only annotator id leaves the
component state unchanged, so the session stays unlocked and no identity
is captured; the session flag becomes set exactly when it already was or
the trimmed id is non-empty. The AnnotatorCard variant likewise submits
nothing for a blank id. -/
theorem lock_rejects_blank_id (s : StoreState) (agentSel : String) :
    (jsTrim s.annotatorId = [] → handleAnnotatorIdSubmit s = s) ∧
    ((handleAnnotatorIdSubmit s).isAnnotatorIdSet = true ↔
      (s.isAnnotatorIdSet = true ∨ jsTrim s.annotatorId ≠ [])) ∧
    (jsTrim s.annotatorId = [] → annotatorCardSubmit s.annotatorId agentSel = none) := by
  refine ⟨?_, ?_, ?_⟩
  · intro h
    simp [handleAnnotatorIdSubmit, h]
  · by_cases h : jsTrim s.annotatorId = []
    · simp [handleAnnotatorIdSubmit, h]
    · simp [handleAnnotatorIdSubmit, h]
  · intro h
    simp [annotatorCardSubmit, h]

/-- Witness for `lock_rejects_blank_id` at the state whose annotator id
input holds two spaces. -/
theorem lock_rejects_blank_id_witness :
    (jsTrim stateBlank.annotatorId = [] →
      handleAnnotatorIdSubmit stateBlank = stateBlank) ∧
    ((handleAnnotatorIdSubmit stateBlank).isAnnotatorIdSet = true ↔
      (stateBlank.isAnnotatorIdSet = true ∨ jsTrim stateBlank.annotatorId ≠ [])) ∧
    (jsTrim stateBlank.annotatorId = [] →
      annotatorCardSubmit stateBlank.annotatorId "agent-1" = none) :=
  lock_rejects_blank_id stateBlank "agent-1"

/-! ### Claim C3 -/

/-- C3 (corrected): a valid `addComment` call (instance present,
selection draft present, session locked, trimmed annotator id and body
non-empty) appends exactly one new comment at the end of the in-memory
list before the persistence call resolves, with `isSaving = true`
(Pending), no error, the draft text and offsets copied verbatim without
re-validation, the id `temp-` + timestamp, and the payload handed to the
Sync Adapter. (The original claim also asserted the synthesized id is
distinct from every existing id; that fails when two comments are
created in the same millisecond — see the counterexample — because the
id is a pure function of `Date.now()`.) -/
theorem addComment_appends_pending (s : StoreState) (now : Nat) (iid : String)
    (sel : SelectionDraft)
    (hiid : s.instanceId = some iid) (hsel : s.selection = some sel)
    (hlock : s.isAnnotatorIdSet = true) (hauth : jsTrim s.annotatorId ≠ [])
    (hbody : jsTrim s.newComment ≠ []) :
    ∃ c : Comment,
      (addComment now s).1.comments = s.comments ++ [c] ∧
      c.isSaving = true ∧ c.saveError = none ∧
      c.selection.startOffset = sel.startOffset ∧
      c.selection.endOffset = sel.endOffset ∧
      c.selection.text = sel.text ∧
      c.id = mkTempId now ∧ c.timestamp = now ∧
      (addComment now s).2 ≠ none := by
  refine ⟨{ id := mkTempId now, text := s.newComment,
            selection := { text := sel.text, startOffset := sel.startOffset,
                           endOffset := sel.endOffset },
            user := jsTrim s.annotatorId, timestamp := now, replies := [],
            isSaving := true, saveError := none },
    ?_, rfl, rfl, rfl, rfl, rfl, rfl, rfl, ?_⟩ <;>
    simp [addComment, hiid, hsel, hlock, hauth, hbody]

/-! ### Claim C4 -/

theorem orderedInsert_map_comm (f : Comment → Comment)
    (hf : ∀ c, (f c).selection = c.selection) (x : Comment) :
    ∀ l : List Comment, List.orderedInsert commentLE (f x) (l.map f) =
      (List.orderedInsert commentLE x l).map f
  | [] => rfl
  | b :: l => by
      have hiff : commentLE (f x) (f b) ↔ commentLE x b := by
        simp [commentLE, hf]
      by_cases h : commentLE x b
      · simp [List.orderedInsert, if_pos h, if_pos (hiff.mpr h)]
      · simp [List.orderedInsert, if_neg h, if_neg (fun hh => h (hiff.mp hh)),
          orderedInsert_map_comm f hf x l]

theorem sortByStart_map (f : Comment → Comment)
    (hf : ∀ c, (f c).selection = c.selection) :
    ∀ l : List Comment, sortByStart (l.map f) = (sortByStart l).map f
  | [] => rfl
  | x :: l => by
      simp only [List.map_cons, sortByStart, List.insertionSort]
      rw [show List.insertionSort commentLE (l.map f) =
          (List.insertionSort commentLE l).map f from sortByStart_map f hf l]
      exact orderedInsert_map_comm f hf x _

theorem runsWA_texts_map (text : List Char) (active : Option String)
    (f : Comment → Comment) (hf : ∀ c, (f c).selection = c.selection) :
    ∀ (l : List Comment) (idx : Int),
      (runsWA text active (l.map f) idx).map Run.text =
        (runsWA text active l idx).map Run.text
  | [], idx => by simp [runsWA]
  | c :: rest, idx => by
      simp only [List.map_cons, runsWA, hf c, List.map_append]
      rw [runsWA_texts_map text active f hf rest c.selection.endOffset]
      simp [spanRunWA_text, hf c]

/-- C4 (confirmed): resolving the persistence call for a comment never
removes it from the list. On failure the comment keeps its position with
`isSaving = false` and the error message recorded (Failed), and it is
not marked saving again (no retry is issued: the resolution step emits
no request). On success the comment keeps its position with
`isSaving = false` and its error field untouched (Synced when it was
pending with no error). In both cases the text content of the composited
run sequence is unchanged. -/
theorem sync_resolution_preserves_comments (s : StoreState) (cid : String)
    (msg : List Char) (active : Option String) :
    ((resolveSyncFailure cid msg s).comments.length = s.comments.length) ∧
    (∀ c ∈ s.comments, c.id = cid →
      { c with isSaving := false, saveError := some msg } ∈
        (resolveSyncFailure cid msg s).comments) ∧
    (∀ c ∈ (resolveSyncFailure cid msg s).comments, c.id = cid → c.isSaving = false) ∧
    ((renderHighlightedTextWA s.text (resolveSyncFailure cid msg s).comments active).map
        Run.text =
      (renderHighlightedTextWA s.text s.comments active).map Run.text) ∧
    ((resolveSyncSuccess cid s).comments.length = s.comments.length) ∧
    (∀ c ∈ s.comments, c.id = cid →
      { c with isSaving := false } ∈ (resolveSyncSuccess cid s).comments) ∧
    ((renderHighlightedTextWA s.text (resolveSyncSuccess cid s).comments active).map
        Run.text =
      (renderHighlightedTextWA s.text s.comments active).map Run.text) := by
  have hfail : ∀ c : Comment,
      ((fun c => if c.id = cid then { c with isSaving := false, saveError := some msg }
        else c) c).selection = c.selection := by
    intro c
    by_cases h : c.id = cid <;> simp [h]
  have hok : ∀ c : Comment,
      ((fun c => if c.id = cid then { c with isSaving := false } else c) c).selection =
        c.selection := by
    intro c
    by_cases h : c.id = cid <;> simp [h]
  have hrender : ∀ (f : Comment → Comment), (∀ c, (f c).selection = c.selection) →
      (renderHighlightedTextWA s.text (s.comments.map f) active).map Run.text =
        (renderHighlightedTextWA s.text s.comments active).map Run.text := by
    intro f hf
    by_cases htext : s.text = []
    · simp [renderHighlightedTextWA, htext]
    · simp only [renderHighlightedTextWA, if_neg htext]
      rw [sortByStart_map f hf, runsWA_texts_map s.text active f hf]
  refine ⟨?_, ?_, ?_, ?_, ?_, ?_, ?_⟩
  · simp [resolveSyncFailure]
  · intro c hc hid
    simp only [resolveSyncFailure]
    exact List.mem_map.mpr ⟨c, hc, by simp [hid]⟩
  · intro c hc hid
    simp only [resolveSyncFailure, List.mem_map] at hc
    obtain ⟨c0, hc0, hmap⟩ := hc
    by_cases h : c0.id = cid
    · rw [if_pos h] at hmap
      rw [← hmap]
    · rw [if_neg h] at hmap
      rw [← hmap] at hid
      exact absurd hid h
  · exact hrender _ hfail
  · simp [resolveSyncSuccess]
  · intro c hc hid
    simp only [resolveSyncSuccess]
    exact List.mem_map.mpr ⟨c, hc, by simp [hid]⟩
  · exact hrender _ hok

/-- Witness for `sync_resolution_preserves_comments` at the state holding
the pending comment `temp-5`. -/
theorem sync_resolution_preserves_comments_witness :
    ((resolveSyncFailure "temp-5" "boom".data stateOne).comments.length =
      stateOne.comments.length) ∧
    (∀ c ∈ stateOne.comments, c.id = "temp-5" →
      { c with isSaving := false, saveError := some "boom".data } ∈
        (resolveSyncFailure "temp-5" "boom".data stateOne).comments) ∧
    (∀ c ∈ (resolveSyncFailure "temp-5" "boom".data stateOne).comments,
      c.id = "temp-5" → c.isSaving = false) ∧
    ((renderHighlightedTextWA stateOne.text
        (resolveSyncFailure "temp-5" "boom".data stateOne).comments none).map Run.text =
      (renderHighlightedTextWA stateOne.text stateOne.comments none).map Run.text) ∧
    ((resolveSyncSuccess "temp-5" stateOne).comments.length = stateOne.comments.length) ∧
    (∀ c ∈ stateOne.comments, c.id = "temp-5" →
      { c with isSaving := false } ∈ (resolveSyncSuccess "temp-5" stateOne).comments) ∧
    ((renderHighlightedTextWA stateOne.text
        (resolveSyncSuccess "temp-5" stateOne).comments none).map Run.text =
      (renderHighlightedTextWA stateOne.text stateOne.comments none).map Run.text) :=
  sync_resolution_preserves_comments stateOne "temp-5" "boom".data none

/-! ### Claim C8 -/

/-- C8 (corrected): for every reply body that is non-empty AFTER
TRIMMING, `addReply` maps the comment list position-by-position:
the targeted comment gains exactly one reply at the end of its reply
list — carrying the body verbatim, the trimmed annotator id of the
session, and the id `reply-` + timestamp — while every other comment is
unchanged; the list length is unchanged and no persistence payload
exists for replies (the handler returns only a state). (The original
claim promised the append for every non-empty body; a whitespace-only
body such as a single space is non-empty yet is rejected — see the
counterexample.) -/
theorem addReply_appends (s : StoreState) (now : Nat) (cid : String)
    (body : List Char) (hbody : jsTrim body ≠ []) :
    ((addReply now cid body s).comments.length = s.comments.length) ∧
    (∀ (i : Nat) (hi : i < s.comments.length),
      (addReply now cid body s).comments[i]? =
        some (if (s.comments[i]).id = cid then
          { s.comments[i] with replies := (s.comments[i]).replies ++
              [{ id := mkReplyId now, text := body,
                 user := jsTrim s.annotatorId, timestamp := now }] }
        else s.comments[i])) := by
  refine ⟨?_, ?_⟩
  · simp [addReply, if_pos hbody]
  · intro i hi
    simp only [addReply, if_pos hbody, List.getElem?_map,
      List.getElem?_eq_getElem hi, Option.map_some]
    rfl

/-- C8 counterexample: the reply body holding a single space is
non-empty, yet `addReply` with it is a strict no-op: the state is
unchanged and the target comment still has zero replies. -/
theorem reply_whitespace_counterexample :
    " ".data ≠ ([] : List Char) ∧
    addReply 7 "temp-5" " ".data stateOne = stateOne ∧
    (addReply 7 "temp-5" " ".data stateOne).comments.map
      (fun c => c.replies.length) = [0] := by
  decide

/-- Witness for `addReply_appends` replying `agreed` to the comment
`temp-5`. -/
theorem addReply_appends_witness :
    ((addReply 7 "temp-5" "agreed".data stateOne).comments.length =
      stateOne.comments.length) ∧
    (∀ (i : Nat) (hi : i < stateOne.comments.length),
      (addReply 7 "temp-5" "agreed".data stateOne).comments[i]? =
        some (if (stateOne.comments[i]).id = "temp-5" then
          { stateOne.comments[i] with replies := (stateOne.comments[i]).replies ++
              [{ id := mkReplyId 7, text := "agreed".data,
                 user := jsTrim stateOne.annotatorId, timestamp := 7 }] }
        else stateOne.comments[i])) :=
  addReply_appends stateOne 7 "temp-5" "agreed".data (by decide)

/-- C3 counterexample: two comments submitted at the same millisecond
timestamp receive the same synthesized id: after the first submission
the list holds the single id `temp-5`, and the second submission at the
same timestamp appends a comment whose id `temp-5` equals the id of the
comment already in the list. -/
theorem duplicate_id_counterexample :
    stateOne.comments.map Comment.id = ["temp-5"] ∧
    stateTwo.comments.map Comment.id = ["temp-5", "temp-5"] := by
  decide

/-- Witness for `addComment_appends_pending` at the state holding the
`brave` draft, submitted at millisecond 5. -/
theorem addComment_appends_pending_witness :
    ∃ c : Comment,
      (addComment 5 stateDraft).1.comments = stateDraft.comments ++ [c] ∧
      c.isSaving = true ∧ c.saveError = none ∧
      c.selection.startOffset = draftBrave.startOffset ∧
      c.selection.endOffset = draftBrave.endOffset ∧
      c.selection.text = draftBrave.text ∧
      c.id = mkTempId 5 ∧ c.timestamp = 5 ∧
      (addComment 5 stateDraft).2 ≠ none :=
  addComment_appends_pending stateDraft 5 "inst-1" draftBrave (by decide) (by decide)
    (by decide) (by decide) (by decide)

/-! ### Reachability helpers -/

theorem reachable_state0 : Reachable state0 :=
  Reachable.init state0 ⟨rfl, rfl, rfl, rfl, rfl, rfl, rfl, rfl, rfl⟩

theorem reachable_stateLocked : Reachable stateLocked :=
  (reachable_state0.step (Step.annotatorInput "alice".data state0)).step
    (Step.lock (setAnnotatorInput "alice".data state0))

theorem reachable_stateOne : Reachable stateOne :=
  ((reachable_stateLocked.step (Step.select (some draftBrave) stateLocked)).step
    (Step.typeComment "nice adjective".data
      (handleTextSelection (some draftBrave) stateLocked))).step
    (Step.create 5 stateDraft)

theorem reachable_stateClicked : Reachable stateClicked :=
  reachable_stateOne.step (Step.click "temp-5" stateOne (by decide))

/-! ### Claim C6 -/

theorem addComment_flag (now : Nat) (s : StoreState) :
    (addComment now s).1.isAnnotatorIdSet = s.isAnnotatorIdSet := by
  cases hinst : s.instanceId <;> cases hsel : s.selection <;>
    simp only [addComment, hinst, hsel]
  all_goals split_ifs <;> rfl

theorem addComment_active (now : Nat) (s : StoreState) :
    (addComment now s).1.activeComment = s.activeComment := by
  cases hinst : s.instanceId <;> cases hsel : s.selection <;>
    simp only [addComment, hinst, hsel]
  all_goals split_ifs <;> rfl

theorem addComment_comments_of_unlocked (now : Nat) (s : StoreState)
    (hun : s.isAnnotatorIdSet = false) :
    (addComment now s).1.comments = s.comments := by
  cases hinst : s.instanceId <;> cases hsel : s.selection <;>
    simp [addComment, hinst, hsel, hun]

theorem addReply_flag (now : Nat) (cid : String) (v : List Char) (s : StoreState) :
    (addReply now cid v s).isAnnotatorIdSet = s.isAnnotatorIdSet := by
  unfold addReply
  split_ifs <;> rfl

theorem addReply_active (now : Nat) (cid : String) (v : List Char) (s : StoreState) :
    (addReply now cid v s).activeComment = s.activeComment := by
  unfold addReply
  split_ifs <;> rfl

theorem step_unlocked_empty {s t : StoreState} (hstep : Step s t)
    (ih : s.isAnnotatorIdSet = false → s.comments = [])
    (hun : t.isAnnotatorIdSet = false) : t.comments = [] := by
  cases hstep with
  | annotatorInput v s =>
      unfold setAnnotatorInput at hun ⊢
      split_ifs at hun ⊢
      · exact ih hun
      · exact ih hun
  | lock s =>
      unfold handleAnnotatorIdSubmit at hun ⊢
      split_ifs at hun ⊢
      exact ih hun
  | select raw s =>
      unfold handleTextSelection at hun ⊢
      split_ifs at hun ⊢
      · exact ih hun
      · cases raw with
        | none => exact ih hun
        | some sel => exact ih hun
  | typeComment v s => exact ih hun
  | editBox v s => exact ih hun
  | create now s =>
      have hun2 : s.isAnnotatorIdSet = false := by
        rw [← addComment_flag now s]
        exact hun
      rw [addComment_comments_of_unlocked now s hun2]
      exact ih hun2
  | syncOk cid s =>
      have h2 := ih hun
      simp [resolveSyncSuccess, h2]
  | syncFail cid msg s =>
      have h2 := ih hun
      simp [resolveSyncFailure, h2]
  | update cid v s =>
      have h2 := ih hun
      simp [updateComment, h2]
  | delete cid s =>
      have h2 := ih hun
      simp [deleteComment, h2]
  | reply now cid v s =>
      have h2 := ih (by rw [← addReply_flag now cid v s]; exact hun)
      unfold addReply
      split_ifs <;> simp [h2]
  | click cid s h => exact ih hun
  | newDoc iid aid txt s => rfl

theorem unlocked_no_comments {s : StoreState} (hr : Reachable s) :
    s.isAnnotatorIdSet = false → s.comments = [] := by
  induction hr with
  | init s0 h =>
      intro _
      exact h.2.1
  | step hr hstep ih => exact step_unlocked_empty hstep ih

/-- C6 (confirmed): in every state reachable without locking the
annotator session, the comment set is still empty, and each mutation
entry point — selection capture, `addComment`, `updateComment`,
`deleteComment`, `addReply` — leaves the comment set unchanged
(`addComment` additionally hands nothing to the Sync Adapter and
selection capture clears the draft). -/
theorem unlocked_store_is_inert (s : StoreState) (hr : Reachable s)
    (hun : s.isAnnotatorIdSet = false) :
    s.comments = [] ∧
    (∀ raw, (handleTextSelection raw s).comments = s.comments ∧
      (handleTextSelection raw s).selection = none) ∧
    (∀ now, (addComment now s).1.comments = s.comments ∧ (addComment now s).2 = none) ∧
    (∀ cid v, (updateComment cid v s).comments = s.comments) ∧
    (∀ cid, (deleteComment cid s).comments = s.comments) ∧
    (∀ now cid v, (addReply now cid v s).comments = s.comments) := by
  have hc := unlocked_no_comments hr hun
  refine ⟨hc, ?_, ?_, ?_, ?_, ?_⟩
  · intro raw
    exact ⟨by simp [handleTextSelection, hun], by simp [handleTextSelection, hun]⟩
  · intro now
    constructor
    · cases hinst : s.instanceId <;> cases hsel : s.selection <;>
        simp [addComment, hinst, hsel, hun]
    · cases hinst : s.instanceId <;> cases hsel : s.selection <;>
        simp [addComment, hinst, hsel, hun]
  · intro cid v
    simp [updateComment, hc]
  · intro cid
    simp [deleteComment, hc]
  · intro now cid v
    unfold addReply
    split_ifs <;> simp [hc]

/-- Witness for `unlocked_store_is_inert` at the initial state. -/
theorem unlocked_store_is_inert_witness :
    state0.comments = [] ∧
    (∀ raw, (handleTextSelection raw state0).comments = state0.comments ∧
      (handleTextSelection raw state0).selection = none) ∧
    (∀ now, (addComment now state0).1.comments = state0.comments ∧
      (addComment now state0).2 = none) ∧
    (∀ cid v, (updateComment cid v state0).comments = state0.comments) ∧
    (∀ cid, (deleteComment cid state0).comments = state0.comments) ∧
    (∀ now cid v, (addReply now cid v state0).comments = state0.comments) :=
  unlocked_store_is_inert state0 reachable_state0 rfl

/-! ### Claim C10 -/

theorem exists_id_in_map (f : Comment → Comment) (hf : ∀ c, (f c).id = c.id)
    (l : List Comment) (a : String) (h : ∃ c ∈ l, c.id = a) :
    ∃ c ∈ l.map f, c.id = a := by
  obtain ⟨c, hc, hid⟩ := h
  exact ⟨f c, List.mem_map.mpr ⟨c, hc, rfl⟩, by rw [hf c, hid]⟩

theorem step_active_valid {s t : StoreState} (hstep : Step s t)
    (ih : ∀ a : String, s.activeComment = some a → ∃ c ∈ s.comments, c.id = a) :
    ∀ a : String, t.activeComment = some a → ∃ c ∈ t.comments, c.id = a := by
  intro a ha
  cases hstep with
  | annotatorInput v s =>
      unfold setAnnotatorInput at ha ⊢
      split_ifs at ha ⊢
      · exact ih a ha
      · exact ih a ha
  | lock s =>
      unfold handleAnnotatorIdSubmit at ha ⊢
      split_ifs at ha ⊢
      · exact ih a ha
      · exact ih a ha
  | select raw s =>
      unfold handleTextSelection at ha ⊢
      split_ifs at ha ⊢
      · exact ih a ha
      · cases raw with
        | none => exact ih a ha
        | some sel => exact ih a ha
  | typeComment v s => exact ih a ha
  | editBox v s => exact ih a ha
  | create now s =>
      obtain ⟨c, hc, hid⟩ := ih a (by rw [← addComment_active now s]; exact ha)
      refine ⟨c, ?_, hid⟩
      cases hinst : s.instanceId <;> cases hsel : s.selection <;>
        simp only [addComment, hinst, hsel]
      all_goals first
      | (split_ifs <;> simp [hc])
      | simp [hc]
  | syncOk cid s =>
      refine exists_id_in_map _ ?_ _ a (ih a ha)
      intro c
      by_cases h : c.id = cid <;> simp only [if_pos, if_neg, h, ite_true, ite_false]
  | syncFail cid msg s =>
      refine exists_id_in_map _ ?_ _ a (ih a ha)
      intro c
      by_cases h : c.id = cid <;> simp only [if_pos, if_neg, h, ite_true, ite_false]
  | update cid v s =>
      refine exists_id_in_map _ ?_ _ a (ih a ha)
      intro c
      by_cases h : c.id = cid <;> simp only [if_pos, if_neg, h, ite_true, ite_false]
  | delete cid s =>
      have ha2 : (if s.activeComment = some cid then none else s.activeComment) =
        some a := ha
      by_cases h : s.activeComment = some cid
      · rw [if_pos h] at ha2
        exact absurd ha2 (fun hh => Option.noConfusion hh)
      · rw [if_neg h] at ha2
        obtain ⟨c, hc, hid⟩ := ih a ha2
        have hne : c.id ≠ cid := by
          intro hcc
          apply h
          rw [ha2, ← hid, hcc]
        refine ⟨c, ?_, hid⟩
        simp [deleteComment, List.mem_filter, hc, hne]
  | reply now cid v s =>
      have hex := ih a (by rw [← addReply_active now cid v s]; exact ha)
      unfold addReply
      split_ifs
      · refine exists_id_in_map _ ?_ _ a hex
        intro c
        by_cases h : c.id = cid <;> simp only [if_pos, if_neg, h, ite_true, ite_false]
      · exact hex
  | click cid s hmem =>
      have ha2 : (if s.activeComment = some cid then none else some cid) = some a := ha
      by_cases h : s.activeComment = some cid
      · rw [if_pos h] at ha2
        exact absurd ha2 (fun hh => Option.noConfusion hh)
      · rw [if_neg h] at ha2
        have hca : cid = a := Option.some.inj ha2
        subst hca
        obtain ⟨c, hc, hcid⟩ := List.mem_map.mp hmem
        exact ⟨c, hc, hcid⟩
  | newDoc iid aid txt s =>
      exact absurd (ha : (none : Option String) = some a) (fun hh => Option.noConfusion hh)

theorem active_in_comments {s : StoreState} (hr : Reachable s) :
    ∀ a : String, s.activeComment = some a → ∃ c ∈ s.comments, c.id = a := by
  induction hr with
  | init s0 h =>
      intro a ha
      rw [h.2.2.1] at ha
      exact absurd ha (fun hh => Option.noConfusion hh)
  | step hr hstep ih => exact step_active_valid hstep ih

/-- C10 (confirmed): in every reachable state the active comment id, when
present, is the id of a comment currently in the store (highlight clicks
only toggle ids of rendered comments), and deleting the active comment
clears the activation. -/
theorem active_comment_present (s : StoreState) (a : String) (hr : Reachable s)
    (ha : s.activeComment = some a) :
    (∃ c ∈ s.comments, c.id = a) ∧ (deleteComment a s).activeComment = none := by
  refine ⟨active_in_comments hr a ha, ?_⟩
  simp [deleteComment, ha]

/-- Witness for `active_comment_present` at the reachable state where the
comment `temp-5` has been clicked active. -/
theorem active_comment_present_witness :
    (∃ c ∈ stateClicked.comments, c.id = "temp-5") ∧
    (deleteComment "temp-5" stateClicked).activeComment = none :=
  active_comment_present stateClicked "temp-5" reachable_stateClicked (by decide)

end Inspicio
